import Mathlib

/-!
Shallow embedding of `src/inputs/GenericInput.js` (the samsara repository's
`GenericInput` module): a global registry mapping string keys to sync-class
factories, and a per-instance aggregator that instantiates registered sync
classes and wires them to its input and output event sinks.

JavaScript objects used as dictionaries (`registry`, `this._syncs`, the
`syncObject` argument of `register`) are modelled as association lists in
insertion order, matching `for (var key in obj)` iteration order. Factories
and sync-class constructors are opaque JS objects compared by reference
(`===`); they are modelled as natural-number identities. Option values are
opaque; they are likewise modelled as naturals.

The `EventHandler` class lives in `src/core/EventHandler.js`, which is not
part of the sources; its subscribe/unsubscribe/emit contract is modelled
from the spec where noted.
-/

namespace Samsara

/-- A registry / sync key (a JS string property name). -/
abbrev Key := String

/-- An opaque sync-class constructor, compared by identity as `===` does.
JS constructors are objects and hence always truthy, so `registry[key]`
truthiness in the source is exactly presence of the key. -/
abbrev Factory := Nat

/-- An opaque options value, forwarded verbatim and never inspected. -/
abbrev Options := Nat

/-- Lookup in a JS object used as a dictionary: `obj[key]`, as an `Option`
(`none` when the property is absent / `undefined`). -/
def objGet {α : Type} : List (Key × α) → Key → Option α
  | [], _ => none
  | p :: rest, k => if p.1 = k then some p.2 else objGet rest k

/-- Assignment to a JS object used as a dictionary: `obj[key] = v`.
Rebinds the key in place if present, otherwise appends it, preserving
`for ... in` insertion order. -/
def objSet {α : Type} : List (Key × α) → Key → α → List (Key × α)
  | [], k, v => [(k, v)]
  | p :: rest, k, v => if p.1 = k then (k, v) :: rest else p :: objSet rest k v

/-- The single error of the module: `throw new Error('this key is registered
to a different sync class')` inside `GenericInput.register`. -/
inductive RegError where
  | conflict
deriving DecidableEq, Repr

/-- The global registry of sync classes: `var registry = {};`. -/
abbrev Registry := List (Key × Factory)

/-- `GenericInput.register(syncObject)`: iterates the entries of
`syncObject` in order; an already-registered key with the identical factory
makes the whole call `return` (no error); an already-registered key with a
different factory throws; an absent key is inserted and iteration
continues. The registry is global state, so the (possibly partially
mutated) registry is returned alongside the outcome. -/
def register : List (Key × Factory) → Registry → Registry × Option RegError
  | [], reg => (reg, none)
  | (k, f) :: rest, reg =>
    match objGet reg k with
    | some f0 =>
      if f0 = f then (reg, none)
      else (reg, some RegError.conflict)
    | none => register rest (objSet reg k f)

/-- Modelled from the spec: src/core/EventHandler.js is not in the sources.
`emitter.subscribe(sink)` registers `sink` to receive the emitter's events;
a sink already registered is not added twice. -/
def ehSubscribe {α : Type} [DecidableEq α] (subs : List α) (s : α) : List α :=
  if s ∈ subs then subs else subs ++ [s]

/-- Modelled from the spec: src/core/EventHandler.js is not in the sources.
`emitter.unsubscribe(sink)` deregisters `sink`; the severed sink no longer
appears among the emitter's subscribers. -/
def ehUnsubscribe {α : Type} [DecidableEq α] (subs : List α) (s : α) : List α :=
  subs.filter (fun x => x ≠ s)

/-- A reference to an event sink that a sync instance can deliver events
to: the owning aggregator's `_eventInput` handler, or some external sink. -/
inductive SinkRef where
  | inputSink
  | extSink (n : Nat)
deriving DecidableEq, Repr

/-- A live sync-class instance created by `new (registry[key])(options)` and
owned by one aggregator. The instance itself is an external collaborator;
the fields record what the aggregator observably did to it.
`id` is the object's identity (instances are distinct JS objects);
`ctorOptions` the options value the factory was invoked with (`none` for
`undefined`); `optionCalls` the history of `setOptions` calls it received,
in order (modelled from the spec: the options-update operation of the
sync-class capability); `subscribers` its emitter's subscriber list
(modelled from the spec, see `ehSubscribe`). -/
structure SyncInstance where
  id : Nat
  factory : Factory
  ctorOptions : Option Options
  optionCalls : List Options
  subscribers : List SinkRef
deriving DecidableEq, Repr

/-- The per-instance state of a `GenericInput` aggregator: `syncs` is
`this._syncs`; `eventOutputSubs` is the subscriber list of
`this._eventOutput` (instances identified by `id`); `nextId` is the
allocator for fresh instance identities. -/
structure GenericInput where
  syncs : List (Key × SyncInstance)
  eventOutputSubs : List Nat
  nextId : Nat
deriving DecidableEq, Repr

/-- The state right after `this._syncs = {}` with fresh `_eventInput` and
`_eventOutput` handlers. -/
def GenericInput.empty : GenericInput :=
  { syncs := [], eventOutputSubs := [], nextId := 0 }

/-- `GenericInput.prototype.setOptions(options)`: calls
`this._syncs[key].setOptions(options)` for each key of `this._syncs`;
each instance's options-update call is recorded in its history. -/
def setOptions (s : GenericInput) (options : Options) : GenericInput :=
  { s with
    syncs := s.syncs.map fun p =>
      (p.1, { p.2 with optionCalls := p.2.optionCalls ++ [options] }) }

/-- `GenericInput.prototype.subscribeInput(key)`: looks `key` up in
`this._syncs`; on a missing key the subsequent method call on `undefined`
throws, modelled as `none`. Otherwise `sync.subscribe(this._eventInput)`
and `this._eventOutput.subscribe(sync)`. -/
def subscribeInput (s : GenericInput) (key : Key) : Option GenericInput :=
  match objGet s.syncs key with
  | none => none
  | some sync =>
    some { s with
      syncs := objSet s.syncs key
        { sync with subscribers := ehSubscribe sync.subscribers SinkRef.inputSink },
      eventOutputSubs := ehSubscribe s.eventOutputSubs sync.id }

/-- `GenericInput.prototype.unsubscribeInput(key)`: looks `key` up in
`this._syncs`; on a missing key the subsequent method call on `undefined`
throws, modelled as `none`. Otherwise `sync.unsubscribe(this._eventInput)`
and `this._eventOutput.unsubscribe(sync)`. -/
def unsubscribeInput (s : GenericInput) (key : Key) : Option GenericInput :=
  match objGet s.syncs key with
  | none => none
  | some sync =>
    some { s with
      syncs := objSet s.syncs key
        { sync with subscribers := ehUnsubscribe sync.subscribers SinkRef.inputSink },
      eventOutputSubs := ehUnsubscribe s.eventOutputSubs sync.id }

/-- `_addSingleInput(key, options)`: `if (!registry[key]) return;` then
`this._syncs[key] = new (registry[key])(options); this.subscribeInput(key)`.
The key was just stored, so `subscribeInput` always finds it; the `getD`
default is dead code mirroring that the JS call cannot fail here. -/
def _addSingleInput (reg : Registry) (s : GenericInput) (key : Key)
    (options : Option Options) : GenericInput :=
  match objGet reg key with
  | none => s
  | some f =>
    let inst : SyncInstance :=
      { id := s.nextId, factory := f, ctorOptions := options,
        optionCalls := [], subscribers := [] }
    let s' : GenericInput :=
      { s with syncs := objSet s.syncs key inst, nextId := s.nextId + 1 }
    (subscribeInput s' key).getD s'

/-- The `syncs` argument of `addInput` and of the constructor: either an
`Array` of registered keys or an `Object` of `{sync key : sync options}`
fields, the two shapes the source's `instanceof` branches recognize. -/
inductive SyncSpec where
  | arr (keys : List Key)
  | map (entries : List (Key × Options))
deriving DecidableEq, Repr

/-- `GenericInput.prototype.addInput(syncs)`: an `Array` adds each key with
`undefined` options; an `Object` adds each key with its bound options. -/
def addInput (reg : Registry) (s : GenericInput) : SyncSpec → GenericInput
  | .arr keys => keys.foldl (fun acc k => _addSingleInput reg acc k none) s
  | .map entries =>
      entries.foldl (fun acc p => _addSingleInput reg acc p.1 (some p.2)) s

/-- The constructor `function GenericInput(syncs, options)`: initializes
fresh sinks and an empty `_syncs`, then `if (syncs) this.addInput(syncs);
if (options) this.setOptions(options);`. Absent arguments are `none`. -/
def GenericInput.new (reg : Registry) (syncs : Option SyncSpec)
    (options : Option Options) : GenericInput :=
  let s := GenericInput.empty
  let s := match syncs with
    | some sp => addInput reg s sp
    | none => s
  match options with
  | some o => setOptions s o
  | none => s

/-- Modelled from the spec: emission by a sync instance is delivered
synchronously to all current subscribers of its emitter. -/
def emitRecipients (sync : SyncInstance) : List SinkRef :=
  sync.subscribers

/-- Modelled from the spec: an event pushed into the aggregator's
`_eventOutput` sink is delivered to all its current subscribers (the sync
instances subscribed to it, by identity). -/
def outputEmitRecipients (s : GenericInput) : List Nat :=
  s.eventOutputSubs

/-! ### Dictionary lemmas -/

theorem objGet_objSet_self {α : Type} (m : List (Key × α)) (k : Key) (v : α) :
    objGet (objSet m k v) k = some v := by
  induction m with
  | nil => simp [objGet, objSet]
  | cons p rest ih =>
    by_cases h : p.1 = k <;> simp [objGet, objSet, h, ih]

theorem objGet_objSet_ne {α : Type} (m : List (Key × α)) {k k' : Key} (v : α)
    (h : k ≠ k') : objGet (objSet m k' v) k = objGet m k := by
  have h' : ¬ k' = k := fun hh => h hh.symm
  induction m with
  | nil => simp [objGet, objSet, h']
  | cons p rest ih =>
    by_cases hp : p.1 = k'
    · subst hp
      simp [objGet, objSet, h']
    · by_cases hk : p.1 = k <;> simp [objGet, objSet, hp, hk, ih, h, h']

theorem objSet_objSet_self {α : Type} (m : List (Key × α)) (k : Key) (v w : α) :
    objSet (objSet m k v) k w = objSet m k w := by
  induction m with
  | nil => simp [objSet]
  | cons p rest ih =>
    by_cases h : p.1 = k <;> simp [objSet, h, ih]

theorem objGet_map_values {α β : Type} (g : α → β) (m : List (Key × α)) (k : Key) :
    objGet (m.map fun p => (p.1, g p.2)) k = (objGet m k).map g := by
  induction m with
  | nil => simp [objGet]
  | cons p rest ih =>
    by_cases h : p.1 = k <;> simp [objGet, h, ih]

/-! ### Event-handler lemmas -/

theorem mem_ehSubscribe_self {α : Type} [DecidableEq α] (subs : List α) (a : α) :
    a ∈ ehSubscribe subs a := by
  by_cases h : a ∈ subs <;> simp [ehSubscribe, h]

theorem mem_ehSubscribe_of_mem {α : Type} [DecidableEq α] {subs : List α} {a : α}
    (b : α) (h : a ∈ subs) : a ∈ ehSubscribe subs b := by
  by_cases hb : b ∈ subs <;> simp [ehSubscribe, hb, h]

theorem not_mem_ehUnsubscribe_self {α : Type} [DecidableEq α] (subs : List α)
    (a : α) : a ∉ ehUnsubscribe subs a := by
  simp [ehUnsubscribe]

/-! ### Closed forms of the per-key add -/

theorem addSingle_not_registered (reg : Registry) (s : GenericInput) (key : Key)
    (o : Option Options) (h : objGet reg key = none) :
    _addSingleInput reg s key o = s := by
  simp [_addSingleInput, h]

theorem addSingle_registered (reg : Registry) (s : GenericInput) (key : Key)
    (o : Option Options) (f : Factory) (h : objGet reg key = some f) :
    _addSingleInput reg s key o =
      { syncs := objSet s.syncs key ⟨s.nextId, f, o, [], [SinkRef.inputSink]⟩,
        eventOutputSubs := ehSubscribe s.eventOutputSubs s.nextId,
        nextId := s.nextId + 1 } := by
  simp [_addSingleInput, h, subscribeInput, objGet_objSet_self, objSet_objSet_self,
    ehSubscribe]

theorem addSingle_syncs_other (reg : Registry) (s : GenericInput) {key key' : Key}
    (o : Option Options) (h : key ≠ key') :
    objGet (_addSingleInput reg s key' o).syncs key = objGet s.syncs key := by
  cases hr : objGet reg key' with
  | none => rw [addSingle_not_registered reg s key' o hr]
  | some f =>
    rw [addSingle_registered reg s key' o f hr]
    exact objGet_objSet_ne s.syncs _ h

/-! ### Registry lemmas -/

theorem register_keeps_existing (entries : List (Key × Factory)) (reg : Registry)
    (k : Key) (f0 : Factory) (h0 : objGet reg k = some f0) :
    objGet (register entries reg).1 k = some f0 := by
  induction entries generalizing reg with
  | nil => exact h0
  | cons e rest ih =>
    obtain ⟨k', f'⟩ := e
    cases hg : objGet reg k' with
    | some g =>
      by_cases hgf : g = f' <;> simp [register, hg, hgf, h0]
    | none =>
      have hne : k ≠ k' := by
        intro hh
        rw [hh, hg] at h0
        exact Option.noConfusion h0
      simp only [register, hg]
      exact ih (objSet reg k' f')
        (by rw [objGet_objSet_ne reg f' hne]; exact h0)

/-- Processing a prefix of entries whose keys are fresh and pairwise distinct
just inserts them one by one; existing bindings survive those insertions. -/
theorem register_inserts_fresh_entries (pre rest : List (Key × Factory))
    (reg : Registry) (hpre : ∀ p ∈ pre, objGet reg p.1 = none)
    (hnodup : (pre.map Prod.fst).Nodup) :
    register (pre ++ rest) reg =
      register rest (pre.foldl (fun r p => objSet r p.1 p.2) reg) ∧
    ∀ (k : Key) (f0 : Factory), objGet reg k = some f0 →
      objGet (pre.foldl (fun r p => objSet r p.1 p.2) reg) k = some f0 := by
  induction pre generalizing reg with
  | nil => exact ⟨rfl, fun _ _ h => h⟩
  | cons p pre' ih =>
    obtain ⟨k0, v0⟩ := p
    have hp0 : objGet reg k0 = none := hpre (k0, v0) (List.mem_cons_self _ _)
    have hnodup' : (pre'.map Prod.fst).Nodup := by
      rw [List.map_cons] at hnodup
      exact hnodup.of_cons
    have hnotmem : k0 ∉ pre'.map Prod.fst := by
      rw [List.map_cons] at hnodup
      exact (List.nodup_cons.mp hnodup).1
    have hpre' : ∀ q ∈ pre', objGet (objSet reg k0 v0) q.1 = none := by
      intro q hq
      have hne : q.1 ≠ k0 := by
        intro hh
        exact hnotmem (hh ▸ List.mem_map_of_mem Prod.fst hq)
      rw [objGet_objSet_ne reg v0 hne]
      exact hpre q (List.mem_cons_of_mem _ hq)
    obtain ⟨ih1, ih2⟩ := ih (objSet reg k0 v0) hpre' hnodup'
    constructor
    · have step : register (((k0, v0) :: pre') ++ rest) reg =
          register (pre' ++ rest) (objSet reg k0 v0) := by
        simp [register, hp0]
      rw [step, ih1, List.foldl_cons]
    · intro k f0 h0
      have hne : k ≠ k0 := by
        intro hh
        rw [hh, hp0] at h0
        exact Option.noConfusion h0
      rw [List.foldl_cons]
      exact ih2 k f0 (by rw [objGet_objSet_ne reg v0 hne]; exact h0)

/-! ### Attachment lemmas for `addInput` -/

/-- The aggregator holds, under `k`, an instance produced by factory `f`
whose construction options were `o`. -/
def attachedWith (s : GenericInput) (k : Key) (f : Factory)
    (o : Option Options) : Prop :=
  ∃ inst : SyncInstance, objGet s.syncs k = some inst ∧
    inst.factory = f ∧ inst.ctorOptions = o

theorem attachedWith_addSingle_self (reg : Registry) (s : GenericInput)
    (k : Key) (f : Factory) (o : Option Options) (hf : objGet reg k = some f) :
    attachedWith (_addSingleInput reg s k o) k f o := by
  rw [attachedWith, addSingle_registered reg s k o f hf]
  exact ⟨_, objGet_objSet_self s.syncs k _, rfl, rfl⟩

theorem attachedWith_addSingle_other (reg : Registry) (s : GenericInput)
    {k k' : Key} {f : Factory} {o : Option Options} (o' : Option Options)
    (hk : k ≠ k') (hp : attachedWith s k f o) :
    attachedWith (_addSingleInput reg s k' o') k f o := by
  rw [attachedWith, addSingle_syncs_other reg s o' hk]
  exact hp

theorem attachedWith_foldl_arr (reg : Registry) {k : Key} {f : Factory}
    (hf : objGet reg k = some f) (keys : List Key) (s : GenericInput)
    (hp : attachedWith s k f none) :
    attachedWith
      (keys.foldl (fun acc kk => _addSingleInput reg acc kk none) s) k f none := by
  induction keys generalizing s with
  | nil => exact hp
  | cons k' rest ih =>
    rw [List.foldl_cons]
    by_cases hk : k = k'
    · subst hk
      exact ih _ (attachedWith_addSingle_self reg s k f none hf)
    · exact ih _ (attachedWith_addSingle_other reg s none hk hp)

theorem attachedWith_arr (reg : Registry) {k : Key} {f : Factory}
    (hf : objGet reg k = some f) (keys : List Key) (s : GenericInput)
    (hk : k ∈ keys) :
    attachedWith
      (keys.foldl (fun acc kk => _addSingleInput reg acc kk none) s) k f none := by
  induction keys generalizing s with
  | nil => cases hk
  | cons k' rest ih =>
    rw [List.foldl_cons]
    rcases List.mem_cons.mp hk with h | h
    · subst h
      exact attachedWith_foldl_arr reg hf rest _
        (attachedWith_addSingle_self reg s k f none hf)
    · exact ih _ h

theorem attachedWith_foldl_map (reg : Registry) {k : Key} {f : Factory}
    {o : Option Options} (entries : List (Key × Options)) (s : GenericInput)
    (hne : ∀ q ∈ entries, q.1 ≠ k) (hp : attachedWith s k f o) :
    attachedWith
      (entries.foldl (fun acc q => _addSingleInput reg acc q.1 (some q.2)) s)
      k f o := by
  induction entries generalizing s with
  | nil => exact hp
  | cons q rest ih =>
    rw [List.foldl_cons]
    have hqk : k ≠ q.1 := fun hh => hne q (List.mem_cons_self _ _) hh.symm
    exact ih _ (fun r hr => hne r (List.mem_cons_of_mem _ hr))
      (attachedWith_addSingle_other reg s (some q.2) hqk hp)

theorem attachedWith_map (reg : Registry) {k : Key} {f : Factory} {o : Options}
    (hf : objGet reg k = some f) (entries : List (Key × Options))
    (s : GenericInput) (hmem : (k, o) ∈ entries)
    (hnd : (entries.map Prod.fst).Nodup) :
    attachedWith
      (entries.foldl (fun acc q => _addSingleInput reg acc q.1 (some q.2)) s)
      k f (some o) := by
  induction entries generalizing s with
  | nil => cases hmem
  | cons q rest ih =>
    rw [List.map_cons] at hnd
    rw [List.foldl_cons]
    rcases List.mem_cons.mp hmem with h | h
    · subst h
      have hrest : ∀ r ∈ rest, r.1 ≠ k := by
        intro r hr hh
        have hm : r.1 ∈ rest.map Prod.fst := List.mem_map_of_mem Prod.fst hr
        rw [hh] at hm
        exact (List.nodup_cons.mp hnd).1 hm
      exact attachedWith_foldl_map reg rest _ hrest
        (attachedWith_addSingle_self reg s k f (some o) hf)
    · exact ih _ h hnd.of_cons

/-! ### `setOptions` and construction lemmas -/

theorem setOptions_syncs (s : GenericInput) (o : Options) (k : Key) :
    objGet (setOptions s o).syncs k =
      (objGet s.syncs k).map fun i =>
        { i with optionCalls := i.optionCalls ++ [o] } := by
  simp only [setOptions]
  exact objGet_map_values
    (fun i => { i with optionCalls := i.optionCalls ++ [o] }) s.syncs k

theorem setOptions_of_no_syncs (s : GenericInput) (o : Options)
    (h : s.syncs = []) : setOptions s o = s := by
  obtain ⟨sy, eo, ni⟩ := s
  simp only at h
  subst h
  rfl

/-- Every instance created by `_addSingleInput` starts with an empty
options-update history, and the step preserves that invariant. -/
theorem optionCalls_nil_addSingle (reg : Registry) (s : GenericInput)
    (key : Key) (o : Option Options)
    (hq : ∀ (k : Key) (inst : SyncInstance),
      objGet s.syncs k = some inst → inst.optionCalls = []) :
    ∀ (k : Key) (inst : SyncInstance),
      objGet (_addSingleInput reg s key o).syncs k = some inst →
        inst.optionCalls = [] := by
  intro k inst h
  cases hr : objGet reg key with
  | none =>
    rw [addSingle_not_registered reg s key o hr] at h
    exact hq k inst h
  | some f =>
    rw [addSingle_registered reg s key o f hr] at h
    by_cases hk : k = key
    · subst hk
      rw [show (GenericInput.mk
          (objSet s.syncs k ⟨s.nextId, f, o, [], [SinkRef.inputSink]⟩)
          (ehSubscribe s.eventOutputSubs s.nextId) (s.nextId + 1)).syncs =
          objSet s.syncs k ⟨s.nextId, f, o, [], [SinkRef.inputSink]⟩ from rfl,
        objGet_objSet_self] at h
      cases h
      rfl
    · rw [show (GenericInput.mk
          (objSet s.syncs key ⟨s.nextId, f, o, [], [SinkRef.inputSink]⟩)
          (ehSubscribe s.eventOutputSubs s.nextId) (s.nextId + 1)).syncs =
          objSet s.syncs key ⟨s.nextId, f, o, [], [SinkRef.inputSink]⟩ from rfl,
        objGet_objSet_ne _ _ hk] at h
      exact hq k inst h

theorem optionCalls_nil_addInput (reg : Registry) (sp : SyncSpec)
    (s : GenericInput)
    (hq : ∀ (k : Key) (inst : SyncInstance),
      objGet s.syncs k = some inst → inst.optionCalls = []) :
    ∀ (k : Key) (inst : SyncInstance),
      objGet (addInput reg s sp).syncs k = some inst → inst.optionCalls = [] := by
  cases sp with
  | arr keys =>
    show ∀ _ _, objGet
      (keys.foldl (fun acc kk => _addSingleInput reg acc kk none) s).syncs _ =
        _ → _
    induction keys generalizing s with
    | nil => exact hq
    | cons k' rest ih =>
      rw [List.foldl_cons]
      exact ih _ (optionCalls_nil_addSingle reg s k' none hq)
  | map entries =>
    show ∀ _ _, objGet
      (entries.foldl (fun acc q => _addSingleInput reg acc q.1 (some q.2))
        s).syncs _ = _ → _
    induction entries generalizing s with
    | nil => exact hq
    | cons q rest ih =>
      rw [List.foldl_cons]
      exact ih _ (optionCalls_nil_addSingle reg s q.1 (some q.2) hq)

/-- A sample aggregator: the state reached by adding registered key `"a"`
(factory `5`) to a fresh aggregator, used to instantiate the theorems. -/
def sampleAgg : GenericInput :=
  { syncs := [("a", ⟨0, 5, none, [], [SinkRef.inputSink]⟩)],
    eventOutputSubs := [0], nextId := 1 }

/-! ### Claims -/

/-- Claim C1 (counterexample): with factory `1` registered under `"a"`,
calling `register` with the mapping `{a: 1, b: 2}` raises no error, yet the
key `"b"`, absent from the registry, is NOT inserted — refuting that every
other absent key in the mapping is still inserted. -/
theorem register_redundant_aborts_cex :
    objGet [("a", 1)] "a" = some 1 ∧
    objGet [("a", 1)] "b" = none ∧
    (register [("a", 1), ("b", 2)] [("a", 1)]).2 = none ∧
    objGet (register [("a", 1), ("b", 2)] [("a", 1)]).1 "b" = none := by
  decide

/-- Claim C1 (amended): when `register` reaches a mapping entry whose key is
already registered with the identical factory, the whole call returns
successfully at that entry: no error is raised, the entries before it (all
with previously absent, pairwise distinct keys) have been inserted, and no
entry after it is processed, so keys after it are not inserted. -/
theorem register_redundant_entry_ends_call (reg : Registry)
    (pre post : List (Key × Factory)) (k : Key) (f : Factory)
    (hpre : ∀ p ∈ pre, objGet reg p.1 = none)
    (hnodup : (pre.map Prod.fst).Nodup)
    (hk : objGet reg k = some f) :
    register (pre ++ (k, f) :: post) reg =
      (pre.foldl (fun r p => objSet r p.1 p.2) reg, none) := by
  obtain ⟨h1, h2⟩ := register_inserts_fresh_entries pre ((k, f) :: post) reg
    hpre hnodup
  rw [h1]
  simp [register, h2 k f hk]

/-- Claim C1 amended, witnessed at a concrete input: the redundant entry
`("a", 1)` ends the call after the fresh entry `("b", 2)` was inserted;
`("c", 3)` is never processed and no error is raised. -/
theorem register_redundant_entry_ends_call_w :
    register [("b", 2), ("a", 1), ("c", 3)] [("a", 1)] =
      ([("a", 1), ("b", 2)], none) :=
  (register_redundant_entry_ends_call [("a", 1)] [("b", 2)] [("c", 3)] "a" 1
    (by decide) (by decide) (by decide)).trans (by decide)

/-- Claim C2 (counterexample): `"k"` is already bound to factory `7` and the
mapping binds `"k"` to the distinct factory `9`, yet the call raises no
error, because the earlier redundant entry `("a", 1)` makes the call return
before the conflicting entry is reached. -/
theorem register_conflict_unreached_cex :
    objGet [("a", 1), ("k", 7)] "k" = some 7 ∧
    (7 : Factory) ≠ 9 ∧
    (register [("a", 1), ("k", 9)] [("a", 1), ("k", 7)]).2 = none ∧
    objGet (register [("a", 1), ("k", 9)] [("a", 1), ("k", 7)]).1 "k" =
      some 7 := by
  decide

/-- Claim C2 (amended): `register` never rebinds an already-bound key —
after any call, failed or not, the registry still maps the key to its
original factory — and the call raises the conflict error whenever
iteration actually reaches the entry binding that key to a distinct factory
(the entries before it having previously absent, pairwise distinct keys);
an earlier redundant entry instead ends the call without error. -/
theorem register_conflict_keeps_first (reg : Registry) (k : Key)
    (f0 : Factory) (h0 : objGet reg k = some f0) :
    (∀ entries : List (Key × Factory),
      objGet (register entries reg).1 k = some f0) ∧
    ∀ (pre post : List (Key × Factory)) (f : Factory),
      (∀ p ∈ pre, objGet reg p.1 = none) → (pre.map Prod.fst).Nodup →
      f ≠ f0 →
      register (pre ++ (k, f) :: post) reg =
        (pre.foldl (fun r p => objSet r p.1 p.2) reg,
          some RegError.conflict) := by
  constructor
  · intro entries
    exact register_keeps_existing entries reg k f0 h0
  · intro pre post f hpre hnodup hf
    obtain ⟨h1, h2⟩ := register_inserts_fresh_entries pre ((k, f) :: post) reg
      hpre hnodup
    rw [h1]
    have hne : ¬ f0 = f := fun hh => hf hh.symm
    simp [register, h2 k f0 h0, hne]

/-- Claim C2 amended, witnessed at a concrete input: registering
`{b: 2, k: 9}` with `"k"` already bound to `7` inserts `("b", 2)`, raises
the conflict error at the reached entry `("k", 9)`, and keeps `"k"` bound
to `7`. -/
theorem register_conflict_keeps_first_w :
    objGet (register [("b", 2), ("k", 9)] [("k", 7)]).1 "k" = some 7 ∧
    register [("b", 2), ("k", 9)] [("k", 7)] =
      ([("k", 7), ("b", 2)], some RegError.conflict) := by
  have h := register_conflict_keeps_first [("k", 7)] "k" 7 (by decide)
  exact ⟨h.1 [("b", 2), ("k", 9)],
    (h.2 [("b", 2)] [] 9 (by decide) (by decide) (by decide)).trans (by decide)⟩

/-- Claim C3: a key absent from the registry is silently skipped by the
per-key add — a complete no-op on the aggregator — and `addInput` on a key
sequence containing that key (a total function, so no error can be raised)
leaves the aggregator's source map unchanged at that key: no source
instance is attached for it. -/
theorem addInput_unregistered_silent_skip (reg : Registry) (s : GenericInput)
    (k : Key) (keys : List Key) (hk : k ∈ keys) (h : objGet reg k = none) :
    _addSingleInput reg s k none = s ∧
    objGet (addInput reg s (SyncSpec.arr keys)).syncs k =
      objGet s.syncs k := by
  refine ⟨addSingle_not_registered reg s k none h, ?_⟩
  show objGet
    ((keys.foldl (fun acc kk => _addSingleInput reg acc kk none) s)).syncs k = _
  clear hk
  induction keys generalizing s with
  | nil => rfl
  | cons k' rest ih =>
    rw [List.foldl_cons, ih]
    by_cases hkk : k = k'
    · subst hkk
      rw [addSingle_not_registered reg s k none h]
    · exact addSingle_syncs_other reg s none hkk

/-- Claim C3, witnessed at a concrete input: key `"z"` is unregistered, so
adding `["z", "a"]` leaves the source map unchanged at `"z"`. -/
theorem addInput_unregistered_silent_skip_w :
    _addSingleInput [("a", 5)] GenericInput.empty "z" none =
      GenericInput.empty ∧
    objGet (addInput [("a", 5)] GenericInput.empty
      (SyncSpec.arr ["z", "a"])).syncs "z" =
      objGet GenericInput.empty.syncs "z" :=
  addInput_unregistered_silent_skip [("a", 5)] GenericInput.empty "z"
    ["z", "a"] (by decide) (by decide)

/-- Claim C4: `addInput` dispatch — an array argument adds each registered
key with the `undefined` options value, and an object argument adds each
key with the options value bound to that key in the mapping (the keys of a
JS object being unique). -/
theorem addInput_options_dispatch (reg : Registry) (k : Key) (f : Factory)
    (hf : objGet reg k = some f) :
    (∀ (s : GenericInput) (keys : List Key), k ∈ keys →
      attachedWith (addInput reg s (SyncSpec.arr keys)) k f none) ∧
    ∀ (s : GenericInput) (entries : List (Key × Options)) (o : Options),
      (k, o) ∈ entries → (entries.map Prod.fst).Nodup →
      attachedWith (addInput reg s (SyncSpec.map entries)) k f (some o) := by
  constructor
  · intro s keys hk
    exact attachedWith_arr reg hf keys s hk
  · intro s entries o hmem hnd
    exact attachedWith_map reg hf entries s hmem hnd

/-- Claim C4, witnessed at a concrete input: adding `["a"]` attaches `"a"`
with no options; adding `{a: 2}` attaches `"a"` with options `2`. -/
theorem addInput_options_dispatch_w :
    attachedWith (addInput [("a", 5)] GenericInput.empty (SyncSpec.arr ["a"]))
      "a" 5 none ∧
    attachedWith (addInput [("a", 5)] GenericInput.empty
      (SyncSpec.map [("a", 2)])) "a" 5 (some 2) := by
  have h := addInput_options_dispatch [("a", 5)] "a" 5 (by decide)
  exact ⟨h.1 GenericInput.empty ["a"] (by decide),
    h.2 GenericInput.empty [("a", 2)] 2 (by decide) (by decide)⟩

/-- Claim C5: `setOptions` invokes the options-update operation of every
currently attached source exactly once, forwarding the options value
verbatim (each attached instance's call history is extended by exactly that
one value and absent keys stay absent); with zero attached sources the call
is a no-op (and, being a total function, raises no error); and a source
attached afterwards has an empty history — it does not retroactively
receive the options. -/
theorem setOptions_forwards_to_attached (s : GenericInput) (o : Options) :
    (∀ k : Key, objGet (setOptions s o).syncs k =
      (objGet s.syncs k).map fun i =>
        { i with optionCalls := i.optionCalls ++ [o] }) ∧
    (s.syncs = [] → setOptions s o = s) ∧
    ∀ (reg : Registry) (k : Key) (f : Factory) (o' : Option Options),
      objGet reg k = some f →
      ∃ inst : SyncInstance,
        objGet (_addSingleInput reg (setOptions s o) k o').syncs k =
          some inst ∧ inst.optionCalls = [] := by
  refine ⟨fun k => setOptions_syncs s o k, setOptions_of_no_syncs s o, ?_⟩
  intro reg k f o' hreg
  rw [addSingle_registered reg (setOptions s o) k o' f hreg]
  exact ⟨_, objGet_objSet_self _ k _, rfl⟩

/-- Claim C5, witnessed at a concrete input: the one attached source of
`sampleAgg` receives options `3` exactly once; on an empty aggregator the
call is a no-op; a source attached afterwards has an empty history. -/
theorem setOptions_forwards_to_attached_w :
    (objGet (setOptions sampleAgg 3).syncs "a" =
      (objGet sampleAgg.syncs "a").map fun i =>
        { i with optionCalls := i.optionCalls ++ [3] }) ∧
    setOptions GenericInput.empty 3 = GenericInput.empty ∧
    ∃ inst : SyncInstance,
      objGet (_addSingleInput [("b", 7)] (setOptions sampleAgg 3) "b"
        none).syncs "b" = some inst ∧ inst.optionCalls = [] := by
  have h1 := setOptions_forwards_to_attached sampleAgg 3
  have h2 := setOptions_forwards_to_attached GenericInput.empty 3
  exact ⟨h1.1 "a", h2.2.1 rfl, h1.2.2 [("b", 7)] "b" 7 none (by decide)⟩

/-- Claim C6: for a registered key, the per-key add invokes the factory
with the given options, stores the fresh instance in the source map under
that key (replacing any prior instance in place, with no unsubscription or
disposal: the prior instance's subscription to the output sink survives),
and subscribes the new instance — the input sink is among the recipients
of its emissions, and it is among the recipients of output-sink events. -/
theorem addSingleInput_constructs_and_wires (reg : Registry)
    (s : GenericInput) (key : Key) (o : Option Options) (f : Factory)
    (h : objGet reg key = some f) :
    _addSingleInput reg s key o =
      { syncs := objSet s.syncs key ⟨s.nextId, f, o, [], [SinkRef.inputSink]⟩,
        eventOutputSubs := ehSubscribe s.eventOutputSubs s.nextId,
        nextId := s.nextId + 1 } ∧
    objGet (_addSingleInput reg s key o).syncs key =
      some ⟨s.nextId, f, o, [], [SinkRef.inputSink]⟩ ∧
    SinkRef.inputSink ∈
      emitRecipients ⟨s.nextId, f, o, [], [SinkRef.inputSink]⟩ ∧
    s.nextId ∈ outputEmitRecipients (_addSingleInput reg s key o) ∧
    ∀ old : SyncInstance, objGet s.syncs key = some old →
      old.id ∈ outputEmitRecipients s →
      old.id ∈ outputEmitRecipients (_addSingleInput reg s key o) := by
  have e := addSingle_registered reg s key o f h
  refine ⟨e, ?_, ?_, ?_, ?_⟩
  · rw [e]
    exact objGet_objSet_self s.syncs key _
  · exact List.mem_singleton.mpr rfl
  · rw [e]
    exact mem_ehSubscribe_self s.eventOutputSubs s.nextId
  · intro old hold hmem
    rw [e]
    exact mem_ehSubscribe_of_mem s.nextId hmem

/-- Claim C6, witnessed at a concrete input: re-adding `"a"` to `sampleAgg`
replaces the old instance (id `0`) with a fresh one (id `1`) built from
options `9`, subscribes the new instance, and leaves the old instance's
output-sink subscription in place. -/
theorem addSingleInput_constructs_and_wires_w :
    _addSingleInput [("a", 5)] sampleAgg "a" (some 9) =
      { syncs := [("a", ⟨1, 5, some 9, [], [SinkRef.inputSink]⟩)],
        eventOutputSubs := [0, 1], nextId := 2 } ∧
    0 ∈ outputEmitRecipients
      (_addSingleInput [("a", 5)] sampleAgg "a" (some 9)) := by
  have h := addSingleInput_constructs_and_wires [("a", 5)] sampleAgg "a"
    (some 9) 5 (by decide)
  exact ⟨h.1.trans (by decide),
    h.2.2.2.2 ⟨0, 5, none, [], [SinkRef.inputSink]⟩ (by decide) (by decide)⟩

/-- Claim C7: the constructor starts from an empty source map and fresh
sinks, performs `addInput(syncs)` when `syncs` is provided, then
`setOptions(options)` when `options` is provided, in that order — so every
source attached at construction was built from its per-source construction
options first and then received exactly the one shared options value. -/
theorem constructor_pipeline (reg : Registry) (sp : SyncSpec) (o : Options) :
    GenericInput.new reg none none = GenericInput.empty ∧
    GenericInput.empty.syncs = [] ∧
    GenericInput.empty.eventOutputSubs = [] ∧
    GenericInput.new reg (some sp) none = addInput reg GenericInput.empty sp ∧
    GenericInput.new reg none (some o) = setOptions GenericInput.empty o ∧
    GenericInput.new reg (some sp) (some o) =
      setOptions (addInput reg GenericInput.empty sp) o ∧
    ∀ (k : Key) (inst : SyncInstance),
      objGet (GenericInput.new reg (some sp) (some o)).syncs k = some inst →
      inst.optionCalls = [o] := by
  refine ⟨rfl, rfl, rfl, rfl, rfl, rfl, ?_⟩
  intro k inst hinst
  have hnil := optionCalls_nil_addInput reg sp GenericInput.empty
    (fun k' inst' h' => by simp [GenericInput.empty, objGet] at h')
  have hinst' : (objGet (addInput reg GenericInput.empty sp).syncs k).map
      (fun i => { i with optionCalls := i.optionCalls ++ [o] }) =
      some inst := by
    rw [← setOptions_syncs]
    exact hinst
  rcases Option.map_eq_some'.mp hinst' with ⟨inst0, h0, hpatch⟩
  rw [← hpatch]
  simp [hnil k inst0 h0]

/-- Claim C7, witnessed at a concrete input: constructing with
`{a: 2}` and shared options `3` equals `addInput` then `setOptions` on a
fresh aggregator, and the attached instance's history is exactly `[3]`. -/
theorem constructor_pipeline_w :
    GenericInput.new [("a", 5)] (some (SyncSpec.map [("a", 2)])) (some 3) =
      setOptions (addInput [("a", 5)] GenericInput.empty
        (SyncSpec.map [("a", 2)])) 3 ∧
    (⟨0, 5, some 2, [3], [SinkRef.inputSink]⟩ : SyncInstance).optionCalls =
      [3] := by
  have h := constructor_pipeline [("a", 5)] (SyncSpec.map [("a", 2)]) 3
  exact ⟨h.2.2.2.2.2.1,
    h.2.2.2.2.2.2 "a" ⟨0, 5, some 2, [3], [SinkRef.inputSink]⟩ (by decide)⟩

/-- Claim C8: for a key with an attached source, `unsubscribeInput` fully
severs the bidirectional wiring: afterwards the aggregator's input sink is
not among the recipients of an emission by that source, and that source is
not among the recipients of events pushed into the output sink. -/
theorem unsubscribeInput_severs (s : GenericInput) (key : Key)
    (sync : SyncInstance) (h : objGet s.syncs key = some sync) :
    ∃ s' : GenericInput, unsubscribeInput s key = some s' ∧
      (∀ sync' : SyncInstance, objGet s'.syncs key = some sync' →
        SinkRef.inputSink ∉ emitRecipients sync') ∧
      sync.id ∉ outputEmitRecipients s' := by
  refine ⟨GenericInput.mk
    (objSet s.syncs key
      { sync with
        subscribers := ehUnsubscribe sync.subscribers SinkRef.inputSink })
    (ehUnsubscribe s.eventOutputSubs sync.id) s.nextId, ?_, ?_, ?_⟩
  · simp [unsubscribeInput, h]
  · intro sync' h'
    have h'' : objGet (objSet s.syncs key
        { sync with
          subscribers := ehUnsubscribe sync.subscribers SinkRef.inputSink })
        key = some sync' := h'
    rw [objGet_objSet_self] at h''
    cases h''
    exact not_mem_ehUnsubscribe_self sync.subscribers SinkRef.inputSink
  · exact not_mem_ehUnsubscribe_self s.eventOutputSubs sync.id

/-- Claim C8, witnessed at a concrete input: unsubscribing `"a"` from
`sampleAgg` severs both directions for its attached instance (id `0`). -/
theorem unsubscribeInput_severs_w :
    ∃ s' : GenericInput, unsubscribeInput sampleAgg "a" = some s' ∧
      (∀ sync' : SyncInstance, objGet s'.syncs "a" = some sync' →
        SinkRef.inputSink ∉ emitRecipients sync') ∧
      0 ∉ outputEmitRecipients s' :=
  unsubscribeInput_severs sampleAgg "a" ⟨0, 5, none, [], [SinkRef.inputSink]⟩
    (by decide)

/-- Claim C9: registering the same single-key mapping twice with the same
factory succeeds both times, and the registry after the second call equals
the registry after the first — repeat registration is an idempotent no-op
(stated whenever the first call can succeed: the key is absent or already
bound to that same factory). -/
theorem register_repeat_idempotent (reg : Registry) (k : Key) (f : Factory)
    (h : objGet reg k = none ∨ objGet reg k = some f) :
    (register [(k, f)] reg).2 = none ∧
    register [(k, f)] (register [(k, f)] reg).1 =
      ((register [(k, f)] reg).1, none) := by
  rcases h with h | h
  · have e1 : register [(k, f)] reg = (objSet reg k f, none) := by
      simp [register, h]
    rw [e1]
    exact ⟨rfl, by simp [register, objGet_objSet_self]⟩
  · have e1 : register [(k, f)] reg = (reg, none) := by
      simp [register, h]
    rw [e1]
    exact ⟨rfl, by simp [register, h]⟩

/-- Claim C9, witnessed at a concrete input: registering `{a: 1}` twice in
an empty registry succeeds both times and leaves the registry unchanged
after the second call. -/
theorem register_repeat_idempotent_w :
    (register [("a", 1)] []).2 = none ∧
    register [("a", 1)] (register [("a", 1)] []).1 =
      ((register [("a", 1)] []).1, none) :=
  register_repeat_idempotent [] "a" 1 (Or.inl (by decide))

/-- Claim C10: on a key with no attached instance, the `_syncs` lookup
yields nothing and the subsequent subscribe or unsubscribe call on the
`undefined` value fails (a thrown TypeError, modelled as `none`): neither
operation is a silent no-op on an absent key. -/
theorem subscribe_unsubscribe_absent_key_fails (s : GenericInput)
    (key : Key) (h : objGet s.syncs key = none) :
    subscribeInput s key = none ∧ unsubscribeInput s key = none := by
  constructor <;> simp [subscribeInput, unsubscribeInput, h]

/-- Claim C10, witnessed at a concrete input: on a fresh aggregator both
operations fail for the unattached key `"a"`. -/
theorem subscribe_unsubscribe_absent_key_fails_w :
    subscribeInput GenericInput.empty "a" = none ∧
    unsubscribeInput GenericInput.empty "a" = none :=
  subscribe_unsubscribe_absent_key_fails GenericInput.empty "a" (by decide)

end Samsara
